import Mathlib

/-!
A verification development for the encoda document-conversion library.

Part 1 models the codec registry and dispatch (`src/index.ts`): the
`match` operation that selects a codec from content/format hints, and the
top-level `encode` operation.  External collaborators (the filesystem
module loader, the `mime` library, `path.basename`/`path.extname`, and
`util/vfile.isPath`) are abstracted as an environment record, since their
code is outside the repository.

Part 2 models the HTML codec (`src/codecs/html`): the Stencila node
vocabulary subset the claims are about, hyperscript-built HTML trees, and
the encode/decode functions cited by the claims.
-/

namespace Encoda

/-! ## Part 1: codec dispatch (src/index.ts) -/

/-- The options record taken by the top-level `encode` (only the two
fields `encode` itself inspects are modelled). -/
structure GlobalEncodeOptions where
  filePath : Option String
  format : Option String

/-- A `Codec` instance: the matching metadata used by `match`
(`fileNames`, `extNames`, `mediaTypes`, `sniff`) plus a `name` identifying
the module it was loaded from and an abstract `encodeFn` standing for the
codec's `encode` method. -/
structure Codec where
  name : String
  fileNames : Option (List String)
  extNames : Option (List String)
  mediaTypes : Option (List String)
  sniff : Option (String → Bool)
  encodeFn : String → GlobalEncodeOptions → String

/-- Result of `getCodec(name)`, i.e. of dynamically importing
`./codecs/name` and scanning its exports:
`ok c` — the import succeeded and exported a `Codec` subclass;
`noCodec` — the import succeeded but exported no `Codec` subclass
(the JS function returns `undefined`);
`moduleNotFound` — the import threw with `code === MODULE_NOT_FOUND`;
`otherError m` — the import threw some other error with message `m`. -/
inductive LoadResult where
  | ok (c : Codec)
  | noCodec
  | moduleNotFound
  | otherError (m : String)

/-- The environment of external collaborators consulted by `match`:
the dynamic module loader, the `mime` library, `path.basename`,
`path.extname` and `vfile.isPath`. -/
structure MatchEnv where
  load : String → LoadResult
  mimeGetType : String → Option String
  basename : String → String
  extname : String → String
  isPath : String → Bool

/-- JavaScript truthiness of an optional string (`undefined` and `''`
are falsy). -/
def optTruthy : Option String → Bool
  | some s => s ≠ ""
  | none => false

/-- Model of `String.prototype.includes` restricted to a single
character (used as `format.includes('/')`). -/
def strContains (s : String) (c : Char) : Bool := s.data.contains c

/-- Model of `String.prototype.slice(n)`. -/
def strDrop (s : String) (n : Nat) : String := ⟨s.data.drop n⟩

/-- Model of `String.prototype.toLowerCase()`. -/
def strToLower (s : String) : String := ⟨s.data.map Char.toLower⟩

/-- The ordered registry `codecList` from src/index.ts. -/
def codecList : List String :=
  ["elife", "doi", "orcid", "plos",
   "http",
   "dir", "dar",
   "csv", "ods", "tdp", "xlsx",
   "docx", "gdoc", "html", "ipynb", "jats", "jats-pandoc", "latex", "md",
   "odt", "pdf", "txt", "xmd",
   "dmagic",
   "rpng",
   "yaml", "pandoc", "json5", "jsonld", "json"]

/-- Derivation of `fileName`, `extName` and `mediaType` at the start of
`match`: values derived from `content` when it is a truthy path (or when
matching for an output), then overridden by a truthy supplied `format`
(a format containing `/` is a media type, otherwise an extension name
from which a media type is re-derived). -/
def matchVars (env : MatchEnv) (content format : Option String)
    (isOutput : Bool) : Option String × Option String × Option String :=
  let derived : Option String × Option String × Option String :=
    match content with
    | some c =>
      if c ≠ "" && (env.isPath c || isOutput) then
        (some (env.basename c), some (strToLower (strDrop (env.extname c) 1)),
         env.mimeGetType c)
      else (none, none, none)
    | none => (none, none, none)
  match format with
  | some f =>
    if f ≠ "" then
      if strContains f '/' then (derived.1, derived.2.1, some f)
      else (derived.1, some f, env.mimeGetType f)
    else derived
  | none => derived

/-- `fileName && codec.fileNames && codec.fileNames.includes(fileName)` -/
def testFileName (fileName : Option String) (c : Codec) : Bool :=
  match fileName, c.fileNames with
  | some f, some fs => f ≠ "" && fs.contains f
  | _, _ => false

/-- `extName && codec.extNames && codec.extNames.includes(extName)` -/
def testExtName (extName : Option String) (c : Codec) : Bool :=
  match extName, c.extNames with
  | some e, some es => e ≠ "" && es.contains e
  | _, _ => false

/-- `mediaType && codec.mediaTypes && codec.mediaTypes.includes(mediaType)` -/
def testMediaType (mediaType : Option String) (c : Codec) : Bool :=
  match mediaType, c.mediaTypes with
  | some m, some ms => m ≠ "" && ms.contains m
  | _, _ => false

/-- `content && codec.sniff && await codec.sniff(content)` -/
def testSniff (content : Option String) (c : Codec) : Bool :=
  match content, c.sniff with
  | some ct, some sn => ct ≠ "" && sn ct
  | _, _ => false

/-- Disjunction of the four match tests applied to one codec. -/
def anyTest (fileName extName mediaType content : Option String)
    (c : Codec) : Bool :=
  testFileName fileName c || testExtName extName c ||
  testMediaType mediaType c || testSniff content c

/-- The registry loop of `match`.  Arguments: remaining codec names, the
current value of the mutable `codec` variable (which a throwing
`getCodec` call leaves untouched, so a stale instance from an earlier
iteration can survive), and the accumulated warnings.  Returns the
warnings and `some c` if an iteration hit a `return codec`, or `none` if
the loop ended (by exhaustion or by the `if (!codec) break`). -/
def matchLoop (env : MatchEnv)
    (fileName extName mediaType content : Option String) :
    List String → Option Codec → List String → List String × Option Codec
  | [], _, ws => (ws, none)
  | name :: rest, codec, ws =>
    let step : Option Codec × List String :=
      match env.load name with
      | .ok c => (some c, ws)
      | .noCodec => (none, ws)
      | .moduleNotFound => (codec, ws)
      | .otherError m => (codec, ws ++ [m])
    match step with
    | (none, ws') => (ws', none)
    | (some c, ws') =>
      if testFileName fileName c then (ws', some c)
      else if testExtName extName c then (ws', some c)
      else if testMediaType mediaType c then (ws', some c)
      else if testSniff content c then (ws', some c)
      else matchLoop env fileName extName mediaType content rest (some c) ws'

/-- The warning emitted when no codec matched, naming the truthy
content and/or format. -/
def fallbackMsg (content format : Option String) : String :=
  "No codec could be found"
    ++ (match content with
        | some c => if c ≠ "" then " for content \"" ++ c ++ "\"" else ""
        | none => "")
    ++ (match format with
        | some f => if f ≠ "" then " for format \"" ++ f ++ "\"" else ""
        | none => "")
    ++ ". Falling back to plain text codec."

/-- Outcome of a `match` call: the resolved promise value (possibly
`undefined`, via the `@ts-ignore` on the final `getCodec('txt')`), or a
rejection carrying an error. -/
inductive MatchOutcome where
  | ok (c : Option Codec)
  | error (m : String)

/-- The body of `match` once the matching variables have been resolved:
the extension-keyed fast path, then the registry loop, then the fallback
to the `txt` codec with a warning. -/
def matchDispatch (env : MatchEnv)
    (fileName extName mediaType content format : Option String) :
    List String × MatchOutcome :=
  let fast : Option Codec × List String :=
    match extName with
    | some e =>
      match env.load e with
      | .ok c => (some c, [])
      | .noCodec => (none, [])
      | .moduleNotFound => (none, [])
      | .otherError m => (none, [m])
    | none => (none, [])
  match fast with
  | (some c, ws) => (ws, .ok (some c))
  | (none, ws) =>
    match matchLoop env fileName extName mediaType content codecList none ws with
    | (ws', some c) => (ws', .ok (some c))
    | (ws', none) =>
      let ws'' := ws' ++ [fallbackMsg content format]
      match env.load "txt" with
      | .ok c => (ws'', .ok (some c))
      | .noCodec => (ws'', .ok none)
      | .moduleNotFound => (ws'', .error "MODULE_NOT_FOUND")
      | .otherError m => (ws'', .error m)

/-- The `match` operation of src/index.ts. Returns the list of logged
warnings alongside the outcome. -/
def matchCodec (env : MatchEnv) (content format : Option String)
    (isOutput : Bool) : List String × MatchOutcome :=
  let vars := matchVars env content format isOutput
  matchDispatch env vars.1 vars.2.1 vars.2.2 content format

/-- The registry scan as the specification describes it: walk the list
in order; a name whose module fails to load is skipped and iteration
continues; return the first loaded codec for which any of the four tests
succeeds. -/
def scanSpec (env : MatchEnv)
    (fileName extName mediaType content : Option String) :
    List String → Option Codec
  | [] => none
  | name :: rest =>
    match env.load name with
    | .ok c =>
      if anyTest fileName extName mediaType content c then some c
      else scanSpec env fileName extName mediaType content rest
    | _ => scanSpec env fileName extName mediaType content rest

/-- The top-level `encode` of src/index.ts: throw unless at least one of
`filePath`/`format` is truthy, otherwise resolve a codec with
`match(filePath, format, true)` and delegate to its `encode`. -/
def encodeTop (env : MatchEnv) (node : String)
    (options : GlobalEncodeOptions) : List String × Except String String :=
  if !(optTruthy options.filePath || optTruthy options.format) then
    ([], .error "At least one of \"filePath\" or \"format\" option must be provided")
  else
    match matchCodec env options.filePath options.format true with
    | (ws, .ok (some c)) => (ws, .ok (c.encodeFn node options))
    | (ws, .ok none) => (ws, .error "TypeError: codec is undefined")
    | (ws, .error m) => (ws, .error m)

/-! ### Lemmas about the registry loop -/

/-- When every module in the remaining list loads a codec, the loop is a
clean first-match scan: no warnings are added and the result is the
first codec passing any of the four tests. -/
theorem matchLoop_all_ok (env : MatchEnv)
    (fileName extName mediaType content : Option String) :
    ∀ (names : List String) (codec : Option Codec) (ws : List String),
      (∀ n ∈ names, ∃ c, env.load n = .ok c) →
      matchLoop env fileName extName mediaType content names codec ws
        = (ws, scanSpec env fileName extName mediaType content names) := by
  intro names
  induction names with
  | nil => intro codec ws _; rfl
  | cons name rest ih =>
    intro codec ws h
    obtain ⟨c, hc⟩ := h name (List.mem_cons_self name rest)
    have hrest : ∀ n ∈ rest, ∃ c, env.load n = .ok c :=
      fun n hn => h n (List.mem_cons_of_mem name hn)
    simp only [matchLoop, scanSpec, hc]
    by_cases h1 : testFileName fileName c
    · simp [anyTest, h1]
    · by_cases h2 : testExtName extName c
      · simp [anyTest, h1, h2]
      · by_cases h3 : testMediaType mediaType c
        · simp [anyTest, h1, h2, h3]
        · by_cases h4 : testSniff content c
          · simp [anyTest, h1, h2, h3, h4]
          · simp [anyTest, h1, h2, h3, h4, ih (some c) ws hrest]

/-- When no codec the loader can produce passes any test (including any
stale codec instance carried over), the loop never returns a codec. -/
theorem matchLoop_no_match (env : MatchEnv)
    (fileName extName mediaType content : Option String) :
    ∀ (names : List String) (codec : Option Codec) (ws : List String),
      (∀ n c, n ∈ names → env.load n = .ok c →
        anyTest fileName extName mediaType content c = false) →
      (∀ c, codec = some c →
        anyTest fileName extName mediaType content c = false) →
      (matchLoop env fileName extName mediaType content names codec ws).2
        = none := by
  intro names
  induction names with
  | nil => intro codec ws _ _; rfl
  | cons name rest ih =>
    intro codec ws h h0
    have hrest : ∀ n c, n ∈ rest → env.load n = .ok c →
        anyTest fileName extName mediaType content c = false :=
      fun n c hn => h n c (List.mem_cons_of_mem name hn)
    cases henv : env.load name with
    | ok c =>
      have hflat := h name c (List.mem_cons_self name rest) henv
      obtain ⟨⟨⟨p1, p2⟩, p3⟩, p4⟩ :
          ((testFileName fileName c = false ∧ testExtName extName c = false) ∧
            testMediaType mediaType c = false) ∧
            testSniff content c = false := by
        simpa [anyTest] using hflat
      simp only [matchLoop, henv, p1, p2, p3, p4, Bool.false_eq_true, if_false]
      exact ih (some c) ws hrest (fun c' hc' => by cases hc'; exact hflat)
    | noCodec => simp [matchLoop, henv]
    | moduleNotFound =>
      cases codec with
      | none => simp [matchLoop, henv]
      | some c =>
        have hflat := h0 c rfl
        obtain ⟨⟨⟨p1, p2⟩, p3⟩, p4⟩ :
            ((testFileName fileName c = false ∧ testExtName extName c = false) ∧
              testMediaType mediaType c = false) ∧
              testSniff content c = false := by
          simpa [anyTest] using hflat
        simp only [matchLoop, henv, p1, p2, p3, p4, Bool.false_eq_true, if_false]
        exact ih (some c) ws hrest h0
    | otherError m =>
      cases codec with
      | none => simp [matchLoop, henv]
      | some c =>
        have hflat := h0 c rfl
        obtain ⟨⟨⟨p1, p2⟩, p3⟩, p4⟩ :
            ((testFileName fileName c = false ∧ testExtName extName c = false) ∧
              testMediaType mediaType c = false) ∧
              testSniff content c = false := by
          simpa [anyTest] using hflat
        simp only [matchLoop, henv, p1, p2, p3, p4, Bool.false_eq_true, if_false]
        exact ih (some c) (ws ++ [m]) hrest h0

/-- Fast path of `matchDispatch`: a loadable codec module named for the
extension is returned immediately, with no warnings. -/
theorem matchDispatch_fast (env : MatchEnv)
    (fileName extName mediaType content format : Option String)
    (e : String) (c : Codec)
    (hext : extName = some e) (hload : env.load e = .ok c) :
    matchDispatch env fileName extName mediaType content format
      = ([], .ok (some c)) := by
  subst hext
  simp only [matchDispatch, hload]

/-- Registry phase of `matchDispatch`: when the fast path produces no
codec and every registry module loads, the result is the codec found by
the in-order first-match scan. -/
theorem matchDispatch_registry (env : MatchEnv)
    (fileName extName mediaType content format : Option String) (c : Codec)
    (hfast : ∀ e, extName = some e → ∀ c', env.load e ≠ .ok c')
    (hok : ∀ n ∈ codecList, ∃ c', env.load n = .ok c')
    (hscan : scanSpec env fileName extName mediaType content codecList
      = some c) :
    (matchDispatch env fileName extName mediaType content format).2
      = .ok (some c) := by
  cases extName with
  | none =>
    have hloop := matchLoop_all_ok env fileName none mediaType content
      codecList none [] hok
    simp only [matchDispatch, hloop, hscan]
  | some e =>
    cases hload : env.load e with
    | ok c' => exact absurd hload (hfast e rfl c')
    | noCodec =>
      have hloop := matchLoop_all_ok env fileName (some e) mediaType content
        codecList none [] hok
      simp only [matchDispatch, hload, hloop, hscan]
    | moduleNotFound =>
      have hloop := matchLoop_all_ok env fileName (some e) mediaType content
        codecList none [] hok
      simp only [matchDispatch, hload, hloop, hscan]
    | otherError m =>
      have hloop := matchLoop_all_ok env fileName (some e) mediaType content
        codecList none [m] hok
      simp only [matchDispatch, hload, hloop, hscan]

/-- Fallback phase of `matchDispatch`: when the fast path produces no
codec and no loadable registry codec passes any test, the fallback
warning is logged and the `txt` codec is returned. -/
theorem matchDispatch_fallback (env : MatchEnv)
    (fileName extName mediaType content format : Option String) (txtC : Codec)
    (htxt : env.load "txt" = .ok txtC)
    (hfast : ∀ e, extName = some e → ∀ c', env.load e ≠ .ok c')
    (hnone : ∀ n c, n ∈ codecList → env.load n = .ok c →
      anyTest fileName extName mediaType content c = false) :
    ∃ ws', matchDispatch env fileName extName mediaType content format
      = (ws' ++ [fallbackMsg content format], .ok (some txtC)) := by
  have key : ∀ ws,
      (match matchLoop env fileName extName mediaType content codecList none ws with
       | (ws', some c) => (ws', MatchOutcome.ok (some c))
       | (ws', none) =>
         let ws'' := ws' ++ [fallbackMsg content format]
         match env.load "txt" with
         | .ok c => (ws'', MatchOutcome.ok (some c))
         | .noCodec => (ws'', MatchOutcome.ok none)
         | .moduleNotFound => (ws'', MatchOutcome.error "MODULE_NOT_FOUND")
         | .otherError m => (ws'', MatchOutcome.error m))
      = ((matchLoop env fileName extName mediaType content codecList none ws).1
          ++ [fallbackMsg content format], MatchOutcome.ok (some txtC)) := by
    intro ws
    have hloop : (matchLoop env fileName extName mediaType content codecList
        none ws).2 = none :=
      matchLoop_no_match env fileName extName mediaType content
        codecList none ws hnone (fun c hc => by cases hc)
    rcases hpair : matchLoop env fileName extName mediaType content codecList
        none ws with ⟨ws1, r⟩
    rw [hpair] at hloop
    cases hloop
    simp only [htxt]
  cases extName with
  | none =>
    exact ⟨(matchLoop env fileName none mediaType content codecList
      none []).1, by simp only [matchDispatch, key []]⟩
  | some e =>
    cases hload : env.load e with
    | ok c' => exact absurd hload (hfast e rfl c')
    | noCodec =>
      exact ⟨(matchLoop env fileName (some e) mediaType content codecList
        none []).1, by simp only [matchDispatch, hload, key []]⟩
    | moduleNotFound =>
      exact ⟨(matchLoop env fileName (some e) mediaType content codecList
        none []).1, by simp only [matchDispatch, hload, key []]⟩
    | otherError m =>
      exact ⟨(matchLoop env fileName (some e) mediaType content codecList
        none [m]).1, by simp only [matchDispatch, hload, key [m]]⟩

/-! ### Concrete codecs and environments used as witnesses -/

/-- A concrete `html` codec instance. -/
def htmlCW : Codec :=
  ⟨"html", none, some ["html"], some ["text/html"], none, fun _ _ => ""⟩

/-- A concrete plain-text codec instance. -/
def txtCW : Codec :=
  ⟨"txt", none, some ["txt"], some ["text/plain"], none, fun _ _ => ""⟩

/-- A concrete `doi` codec instance whose sniff predicate always
succeeds. -/
def doiCW : Codec :=
  ⟨"doi", none, none, none, some (fun _ => true), fun _ _ => ""⟩

/-- An environment in which only the `html` codec module exists. -/
def envFastW : MatchEnv :=
  { load := fun n => if n = "html" then .ok htmlCW else .moduleNotFound,
    mimeGetType := fun _ => none, basename := fun s => s,
    extname := fun _ => "", isPath := fun _ => false }

/-- An environment in which only the `txt` codec module exists. -/
def envFallW : MatchEnv :=
  { load := fun n => if n = "txt" then .ok txtCW else .moduleNotFound,
    mimeGetType := fun _ => none, basename := fun s => s,
    extname := fun _ => "", isPath := fun _ => false }

/-- An environment in which the first registry module (`elife`) is
missing while a later one (`doi`) exists, would sniff-match, and `txt`
exists for the fallback. -/
def envBugW : MatchEnv :=
  { load := fun n =>
      if n = "doi" then .ok doiCW
      else if n = "txt" then .ok txtCW
      else .moduleNotFound,
    mimeGetType := fun _ => none, basename := fun s => s,
    extname := fun _ => "", isPath := fun _ => false }

/-! ### Claim theorems about dispatch -/

/-- C1: if an extension name was derived from the content path or given
as the explicit format and the codec module named exactly for that
extension loads, `match` returns that codec immediately (no registry
warnings, registry untouched); otherwise, whenever the registry modules
load, `match` returns exactly the result of iterating the registry in
its fixed order and returning the first codec for which any of the tests
(exact filename, extension, media type, content sniff — attempted in
that order) succeeds. -/
theorem claim_C1_match_dispatch_order (env : MatchEnv)
    (content format : Option String) (isOutput : Bool) :
    (∀ e c, (matchVars env content format isOutput).2.1 = some e →
       env.load e = .ok c →
       matchCodec env content format isOutput = ([], .ok (some c)))
    ∧ (∀ (_ : ∀ e, (matchVars env content format isOutput).2.1 = some e →
          ∀ c', env.load e ≠ .ok c')
        (_ : ∀ n ∈ codecList, ∃ c', env.load n = .ok c')
        (c : Codec),
        scanSpec env (matchVars env content format isOutput).1
          (matchVars env content format isOutput).2.1
          (matchVars env content format isOutput).2.2 content codecList
          = some c →
        (matchCodec env content format isOutput).2 = .ok (some c)) := by
  constructor
  · intro e c hext hload
    exact matchDispatch_fast env (matchVars env content format isOutput).1
      (matchVars env content format isOutput).2.1
      (matchVars env content format isOutput).2.2 content format e c hext hload
  · intro hfast hok c hscan
    exact matchDispatch_registry env (matchVars env content format isOutput).1
      (matchVars env content format isOutput).2.1
      (matchVars env content format isOutput).2.2 content format c
      hfast hok hscan

/-- Witness for C1: with only the `html` module present and the explicit
format `html`, `match` returns the `html` codec via the fast path. -/
theorem claim_C1_witness :
    matchCodec envFastW none (some "html") false = ([], .ok (some htmlCW)) :=
  (claim_C1_match_dispatch_order envFastW none (some "html") false).1
    "html" htmlCW rfl rfl

/-- C3: when the fast path yields no codec and no loadable registry
codec passes any of the four tests, `match` logs the fallback warning
(which names the truthy content and/or format) and returns the `txt`
codec; the call does not reject. -/
theorem claim_C3_fallback_to_txt (env : MatchEnv)
    (content format : Option String) (isOutput : Bool) (txtC : Codec)
    (htxt : env.load "txt" = .ok txtC)
    (hfast : ∀ e, (matchVars env content format isOutput).2.1 = some e →
      ∀ c', env.load e ≠ .ok c')
    (hnone : ∀ n c, n ∈ codecList → env.load n = .ok c →
      anyTest (matchVars env content format isOutput).1
        (matchVars env content format isOutput).2.1
        (matchVars env content format isOutput).2.2 content c = false) :
    (matchCodec env content format isOutput).2 = .ok (some txtC)
    ∧ fallbackMsg content format ∈ (matchCodec env content format isOutput).1
    ∧ ∀ m, (matchCodec env content format isOutput).2 ≠ .error m := by
  obtain ⟨ws', hws⟩ := matchDispatch_fallback env
    (matchVars env content format isOutput).1
    (matchVars env content format isOutput).2.1
    (matchVars env content format isOutput).2.2 content format txtC
    htxt hfast hnone
  have hmc : matchCodec env content format isOutput
      = (ws' ++ [fallbackMsg content format], .ok (some txtC)) := hws
  rw [hmc]
  refine ⟨rfl, by simp, by intro m; simp⟩

/-- Witness for C3: content that is not a path and matches nothing
falls back to the `txt` codec with the fallback warning logged. -/
theorem claim_C3_witness :
    (matchCodec envFallW (some "???unknown") none false).2
      = .ok (some txtCW)
    ∧ fallbackMsg (some "???unknown") none
        ∈ (matchCodec envFallW (some "???unknown") none false).1 := by
  have h := claim_C3_fallback_to_txt envFallW (some "???unknown") none false
    txtCW rfl (fun e he => nomatch he) ?hnone
  · exact ⟨h.1, h.2.1⟩
  case hnone =>
    intro n c hn hc
    by_cases h : n = "txt"
    · subst h
      simp only [envFallW, if_pos rfl] at hc
      cases hc
      rfl
    · simp [envFallW, h] at hc

/-- C2 (evidence of the code bug): with `elife` (the first registry
entry) missing, `doi` present with an always-true sniff, and `txt`
present, `match` on non-path content with no format hits the
`if (!codec) break` on the very first iteration and falls back to the
`txt` codec — even though the skip-and-continue scan described by the
spec would return the `doi` codec. -/
theorem claim_C2_break_on_load_failure :
    matchCodec envBugW (some "10.5072/xyz") none false
      = ([fallbackMsg (some "10.5072/xyz") none], .ok (some txtCW))
    ∧ scanSpec envBugW none none none (some "10.5072/xyz") codecList
      = some doiCW
    ∧ doiCW.name ≠ txtCW.name :=
  ⟨rfl, rfl, by decide⟩

/-- C9: the top-level `encode` throws immediately — independently of the
codec environment, so before any codec dispatch — when neither a truthy
`filePath` nor a truthy `format` is provided; otherwise it resolves a
codec with `match(filePath, format, true)` and delegates to that codec's
`encode`. -/
theorem claim_C9_encode_requires_target (env : MatchEnv) (node : String)
    (options : GlobalEncodeOptions) :
    (optTruthy options.filePath = false ∧ optTruthy options.format = false →
      encodeTop env node options
        = ([], .error "At least one of \"filePath\" or \"format\" option must be provided")
      ∧ ∀ env', encodeTop env node options = encodeTop env' node options)
    ∧ ((optTruthy options.filePath || optTruthy options.format) = true →
      encodeTop env node options
        = match matchCodec env options.filePath options.format true with
          | (ws, .ok (some c)) => (ws, .ok (c.encodeFn node options))
          | (ws, .ok none) => (ws, .error "TypeError: codec is undefined")
          | (ws, .error m) => (ws, .error m)) := by
  constructor
  · rintro ⟨h1, h2⟩
    refine ⟨by simp [encodeTop, h1, h2], fun env' => by simp [encodeTop, h1, h2]⟩
  · intro h
    simp only [encodeTop, h, Bool.not_true, Bool.false_eq_true, if_false]

/-- Witness for C9: an options record with neither field set makes
`encode` throw the documented error. -/
theorem claim_C9_witness :
    encodeTop envFastW "node" ⟨none, none⟩
      = ([], .error "At least one of \"filePath\" or \"format\" option must be provided") :=
  ((claim_C9_encode_requires_target envFastW "node" ⟨none, none⟩).1
    ⟨rfl, rfl⟩).1

/-! ## Part 2: the HTML codec (src/codecs/html)

The node vocabulary is reduced to the constructors the claims are about
(`string`, `Heading`, `Paragraph`, `List`, `ListItem`, and nodes whose
type discriminator has no explicit case in the encoder); encode/decode
cases for node types outside this vocabulary are omitted.  The external
libraries the codec calls into (`TxtCodec.stringify` from the txt codec,
`github-slugger`, `JSON5`) are abstracted as a record of functions. -/

/-- JSON values — the canonical serialized form of Document Model
nodes (numbers are restricted to integers to keep equality exact). -/
inductive Json where
  | null
  | bool (b : Bool)
  | num (n : Int)
  | str (s : String)
  | arr (items : List Json)
  | obj (fields : List (String × Json))

mutual
/-- The reduced Stencila node vocabulary.  `other j` stands for a node
whose `type` discriminator is not matched by any explicit case of the
HTML encoder's switch; `j` is its canonical JSON form. -/
inductive SNode where
  | str (s : String)
  | heading (id : Option String) (depth : Option Nat) (content : List SNode)
  | paragraph (content : List SNode)
  | list (order : Option String) (items : List ListItemRec)
  | listItem (item : ListItemRec)
  | other (json : Json)

/-- The fields of a Stencila `ListItem`. -/
inductive ListItemRec where
  | mk (id : Option String) (position : Option Nat) (url : Option String)
       (isChecked : Option Bool) (content : List SNode)
end

/-- The `position` field of a `ListItem`. -/
def ListItemRec.position : ListItemRec → Option Nat
  | .mk _ p _ _ _ => p

/-- A DOM subtree as built by hyperscript: an element with a tag,
attributes and children, or a text node. -/
inductive Html where
  | element (tag : String) (attrs : List (String × String)) (children : List Html)
  | text (s : String)

/-- `childNodes` of a DOM node. -/
def Html.childNodes : Html → List Html
  | .element _ _ cs => cs
  | .text _ => []

/-- The tag of an element, `none` for a text node. -/
def tagOf : Html → Option String
  | .element t _ _ => some t
  | .text _ => none

/-- The external libraries used by the codec: `TxtCodec.stringify`
(the txt codec is not part of this snapshot), the `github-slugger`
instance (modelled as a pure function), and `JSON5.stringify`/`parse`
on nodes. -/
structure ExtLibs where
  txtStringify : SNode → String
  slug : String → String
  json5Stringify : SNode → String
  json5Parse : String → Except String SNode

/-- Decimal digit character. -/
def digitChar (n : Nat) : Char := Char.ofNat (48 + n)

/-- Decimal representation of a natural number (fuel-based so that it
evaluates by kernel reduction; the fuel `n+1` always suffices). -/
def natToStringAux : Nat → Nat → List Char
  | 0, n => [digitChar (n % 10)]
  | fuel + 1, n =>
    if n < 10 then [digitChar n]
    else natToStringAux fuel (n / 10) ++ [digitChar (n % 10)]

/-- Decimal representation of a natural number, modelling JavaScript
number-to-string coercion for the non-negative integers used here. -/
def natToString (n : Nat) : String := ⟨natToStringAux (n + 1) n⟩

/-- Model of the `@stencila/schema` `microdataItemtype` helper. -/
def microdataItemtype (typeName : String) : String :=
  "https://schema.stenci.la/" ++ typeName

/-- Model of the attributes produced by the `@stencila/schema`
`microdata(node)` helper for a node of the given type. -/
def microdataAttrs (typeName : String) : List (String × String) :=
  [("itemscope", ""), ("itemtype", microdataItemtype typeName)]

/-- Model of `microdata(node, property)`: type attributes plus the
`itemprop` naming the property the node fills. -/
def microdataPropAttrs (typeName property : String) : List (String × String) :=
  microdataAttrs typeName ++ [("itemprop", property)]

/-- Model of the `@stencila/schema` `microdataType` helper: recover the
type name from an `itemtype` URL. -/
def microdataType (itemtype : String) : Option String :=
  let p := "https://schema.stenci.la/"
  if itemtype.data.take p.data.length = p.data then
    some ⟨itemtype.data.drop p.data.length⟩
  else none

/-- Look up an attribute value. -/
def attrLookup (key : String) (attrs : List (String × String)) : Option String :=
  (attrs.find? (fun p => p.1 == key)).map (fun p => p.2)

/-- Model of the external `escape-html` library, character by
character. -/
def escapeChar (c : Char) : List Char :=
  if c = '&' then "&amp;".data
  else if c = '<' then "&lt;".data
  else if c = '>' then "&gt;".data
  else if c = '"' then "&quot;".data
  else if c = Char.ofNat 39 then "&#39;".data
  else [c]

/-- Model of the external `escape-html` library. -/
def escapeHtml (s : String) : String := ⟨(s.data.map escapeChar).flatten⟩

mutual
/-- `textContent` of a DOM node: the concatenation of all descendant
text. -/
def textContent : Html → String
  | .text s => s
  | .element _ _ cs => textContentList cs

/-- `textContent` concatenated over a list of nodes. -/
def textContentList : List Html → String
  | [] => ""
  | [c] => textContent c
  | c :: rest => textContent c ++ textContentList rest
end

/-- `arr.join(' ')` on a list of strings. -/
def joinSpace : List String → String
  | [] => ""
  | [x] => x
  | x :: rest => x ++ " " ++ joinSpace rest

/-- `list.map(f)` with the element index, as used by
`list.items.map((item, index) => ...)`. -/
def mapWithIndexFrom (f : Nat → α → β) : Nat → List α → List β
  | _, [] => []
  | i, a :: as => f i a :: mapWithIndexFrom f (i + 1) as

/-- `list.map((a, i) => f i a)`. -/
def mapWithIndex (f : Nat → α → β) : List α → List β :=
  mapWithIndexFrom f 0

/-- The `<li>` element built by `encodeListItem` from the destructured
item fields and the already-encoded content: metadata `<meta>` elements
for `position` and `url` (the latter defaulting to `#` followed by the
JS string coercion of `position`), an optional checkbox, then the
content. -/
def liElement (id : Option String) (position : Option Nat)
    (url : Option String) (isChecked : Option Bool)
    (contentChildren : List Html) : Html :=
  Html.element "li"
    (microdataPropAttrs "ListItem" "items"
      ++ (match id with | some i => [("id", i)] | none => []))
    ([Html.element "meta"
        ([("itemprop", "position")]
          ++ (match position with
              | some p => [("content", natToString p)]
              | none => [])) [],
      Html.element "meta"
        [("itemprop", "url"),
         ("content", match url with
          | some u => u
          | none => "#" ++ (match position with
              | some p => natToString p
              | none => "undefined"))] []]
     ++ (match isChecked with
         | none => []
         | some b =>
           [Html.element "input"
             ([("type", "checkbox")] ++ (if b then [("checked", "")] else []))
             []])
     ++ contentChildren)

mutual
/-- The encoder dispatch `encodeNode`, restricted to the reduced
vocabulary.  Any node whose discriminator has no explicit case — here
the `other` constructor — falls through to the `encodeEntity` default
case. -/
def encodeNode (libs : ExtLibs) : SNode → Html
  | .str s => Html.text (escapeHtml s)
  | .heading id depth content =>
    if content.isEmpty then Html.text ""
    else
      Html.element ("h" ++ natToString (min (depth.getD 0 + 1) 6))
        (microdataAttrs "Heading"
          ++ [("id", match id with
               | some i => i
               | none => libs.slug (libs.txtStringify
                   (SNode.heading id depth content)))])
        (encodeNodes libs content)
  | .paragraph content =>
    Html.element "p" (microdataAttrs "Paragraph") (encodeNodes libs content)
  | .list order items =>
    Html.element (if order = some "unordered" then "ul" else "ol")
      (microdataAttrs "List") (encodeListItems libs 0 items)
  | .listItem item =>
    match item with
    | .mk id pos url chk content =>
      liElement id pos url chk
        (match content with
         | [SNode.paragraph ps] => encodeNodes libs ps
         | cs => encodeNodes libs cs)
  | .other j =>
    Html.element "span" (microdataAttrs "Entity")
      [Html.text (libs.json5Stringify (SNode.other j))]

/-- `nodes.map(encodeNode)`. -/
def encodeNodes (libs : ExtLibs) : List SNode → List Html
  | [] => []
  | n :: rest => encodeNode libs n :: encodeNodes libs rest

/-- The body of `encodeList`'s item map: each item is re-dispatched
through `encodeNode` after `{ position: item.position ?? index + 1,
...item }` gives it a default 1-based position. -/
def encodeListItems (libs : ExtLibs) : Nat → List ListItemRec → List Html
  | _, [] => []
  | index, item :: rest =>
    (match item with
     | .mk id pos url chk content =>
       liElement id (some (pos.getD (index + 1))) url chk
         (match content with
          | [SNode.paragraph ps] => encodeNodes libs ps
          | cs => encodeNodes libs cs))
      :: encodeListItems libs (index + 1) rest
end

/-- `encodeHeading` of src/codecs/html: an empty-content heading
becomes an empty text node; otherwise a `<h{min(depth+1,6)}>` element
whose id is the explicit `id` or a slug of the stringified heading. -/
def encodeHeading (libs : ExtLibs) (id : Option String)
    (depth : Option Nat) (content : List SNode) : Html :=
  if content.isEmpty then Html.text ""
  else
    Html.element ("h" ++ natToString (min (depth.getD 0 + 1) 6))
      (microdataAttrs "Heading"
        ++ [("id", match id with
             | some i => i
             | none => libs.slug (libs.txtStringify
                 (SNode.heading id depth content)))])
      (encodeNodes libs content)

/-- `encodeList` of src/codecs/html: `<ul>` for unordered lists,
`<ol>` otherwise, items carrying their (defaulted) positions. -/
def encodeList (libs : ExtLibs) (order : Option String)
    (items : List ListItemRec) : Html :=
  Html.element (if order = some "unordered" then "ul" else "ol")
    (microdataAttrs "List") (encodeListItems libs 0 items)

/-- `encodeEntity` of src/codecs/html: the opaque fallback container, a
`<span>` with `Entity` microdata whose text is the JSON5 serialization
of the whole node. -/
def encodeEntity (libs : ExtLibs) (n : SNode) : Html :=
  Html.element "span" (microdataAttrs "Entity")
    [Html.text (libs.json5Stringify n)]

/-- The encoder dispatch routes headings to `encodeHeading`. -/
theorem encodeNode_heading (libs : ExtLibs) (id : Option String)
    (depth : Option Nat) (content : List SNode) :
    encodeNode libs (SNode.heading id depth content)
      = encodeHeading libs id depth content := by
  cases content <;> rfl

/-- The encoder dispatch routes lists to `encodeList`. -/
theorem encodeNode_list (libs : ExtLibs) (order : Option String)
    (items : List ListItemRec) :
    encodeNode libs (SNode.list order items) = encodeList libs order items := rfl

/-- The encoder dispatch routes unmatched discriminators to
`encodeEntity`. -/
theorem encodeNode_other (libs : ExtLibs) (j : Json) :
    encodeNode libs (SNode.other j) = encodeEntity libs (SNode.other j) := rfl

/-- `n !== ''`: is this node the empty string? -/
def isEmptyStr : SNode → Bool
  | .str s => s = ""
  | _ => false

/-- `/^h(\d)$/i` on a tag name: the heading level. -/
def hLevel (s : String) : Option Nat :=
  match s.data with
  | [c, d] =>
    if (c = 'h' ∨ c = 'H') ∧ d.isDigit then some (d.toNat - 48) else none
  | _ => none

/-- The default `{type: Entity}` node produced by `stencila.entity()`,
in canonical JSON form. -/
def entityDefaultJson : Json := Json.obj [("type", Json.str "Entity")]

mutual
/-- The decoder dispatch `decodeNode`, restricted to the reduced
vocabulary: text nodes, paragraphs, unwrapped containers, ignored
`script` elements, headings (by tag or by `Heading` itemtype), and the
entity fallback for any element carrying an `itemtype`; anything else
decodes to nothing (logged as unhandled in the source). -/
def decodeNode (libs : ExtLibs) : Html → List SNode
  | .text s => [SNode.str s]
  | .element tag attrs children =>
    let itemtype := attrLookup "itemtype" attrs
    let name := (itemtype.bind microdataType).getD tag
    if name = "p" ∨ name = "Paragraph" then
      [SNode.paragraph
        ((decodeNodes libs children).filter (fun n => !(isEmptyStr n)))]
    else if name = "div" ∨ name = "span" ∨ name = "time" then
      decodeNodes libs children
    else if name = "script" then []
    else if (hLevel name).isSome ∨ name = "Heading" then
      [SNode.heading none (some (max 1 ((hLevel tag).getD 1 - 1)))
        ((decodeNodes libs children).filter (fun n => !(isEmptyStr n)))]
    else if itemtype.isSome then
      [match libs.json5Parse (textContent (Html.element tag attrs children)) with
       | .ok n => n
       | .error _ => SNode.other entityDefaultJson]
    else []

/-- `decodeNodes`: decode a list of sibling nodes, flattening the
per-node results. -/
def decodeNodes (libs : ExtLibs) : List Html → List SNode
  | [] => []
  | c :: rest => decodeNode libs c ++ decodeNodes libs rest
end

/-- `decodeChildNodes`. -/
def decodeChildNodes (libs : ExtLibs) (n : Html) : List SNode :=
  decodeNodes libs n.childNodes

/-- `decodeInlineChildNodes`: child nodes with empty strings
filtered out. -/
def decodeInlineChildNodes (libs : ExtLibs) (n : Html) : List SNode :=
  (decodeChildNodes libs n).filter (fun x => !(isEmptyStr x))

/-- `decodeHeading` of src/codecs/html: a native heading element of
level `depth` becomes a `Heading` of depth `max(1, depth - 1)`. -/
def decodeHeading (libs : ExtLibs) (elem : Html) (depth : Nat) : SNode :=
  SNode.heading none (some (max 1 (depth - 1)))
    (decodeInlineChildNodes libs elem)

/-- `decodeEntity` of src/codecs/html: parse the element's text content
as JSON5; on a parse error, log and return `stencila.entity()`. -/
def decodeEntity (libs : ExtLibs) (elem : Html) : SNode :=
  match libs.json5Parse (textContent elem) with
  | .ok n => n
  | .error _ => SNode.other entityDefaultJson

/-- The `depth` of a `Heading` node. -/
def headingDepth : SNode → Option Nat
  | .heading _ d _ => d
  | _ => none

/-- The `id` attribute of an element. -/
def elemIdAttr : Html → Option String
  | .element _ attrs _ => attrLookup "id" attrs
  | .text _ => none

/-- The `content` attribute of the first `<meta>` child of an element —
for a `<li>` built by `encodeListItem` this is the item's `position`. -/
def liPositionContent : Html → Option String
  | .element _ _ (Html.element "meta" attrs _ :: _) => attrLookup "content" attrs
  | _ => none

/-- The `nameString` computation of `encodePerson` in src/codecs/html:
the display name resolved from the structured name fields. -/
def encodePersonNameString (name : Option String)
    (givenNames familyNames : List String) : String :=
  match name with
  | some n => n
  | none =>
    if familyNames.length ≠ 0 then
      if givenNames.length ≠ 0 then joinSpace (givenNames ++ familyNames)
      else joinSpace familyNames
    else "Anonymous"

/-- The display-name priority as the claim states it: explicit name;
else given+family when both non-empty; else family when only family
non-empty; else the literal `Anonymous`. -/
def specDisplayName (name : Option String)
    (givenNames familyNames : List String) : String :=
  match name with
  | some n => n
  | none =>
    if familyNames ≠ [] ∧ givenNames ≠ [] then
      joinSpace (givenNames ++ familyNames)
    else if familyNames ≠ [] then joinSpace familyNames
    else "Anonymous"

/-- The fields of a publisher (`Person | Organization`) that
`encodePublisherProperty` reads. -/
structure PublisherRec where
  name : Option String

/-- The name resolution of `encodePublisherProperty` in
src/codecs/html: `publisher = publisher ?? organization()` followed by
`const { name = 'Unknown' } = publisher`. -/
def encodePublisherName (publisher : Option PublisherRec) : String :=
  ((publisher.getD ⟨none⟩).name).getD "Unknown"

/-- Concrete external libraries used by the Part 2 witnesses. -/
def libsW : ExtLibs :=
  { txtStringify := fun _ => "T", slug := fun s => s,
    json5Stringify := fun _ => "payload",
    json5Parse := fun s =>
      if s = "payload" then .ok (SNode.other Json.null) else .error "bad" }

/-! ### Claim theorems about the HTML codec -/

/-- C4: a `Heading` of depth `d` with non-empty content encodes to a
native heading element of level `min(d+1, 6)`; a native heading element
of level `n` decodes to a `Heading` of depth `max(1, n-1)`; depth 1
encodes to level 2 and decodes back to depth 1; and any depth exceeding
the native maximum is clamped to level 6 on encode, whose decode yields
depth 5, so the original depth is not recovered. -/
theorem claim_C4_heading_depth_roundtrip (libs : ExtLibs)
    (id : Option String) (d : Nat) (content : List SNode)
    (hc : content ≠ []) :
    tagOf (encodeHeading libs id (some d) content)
      = some ("h" ++ natToString (min (d + 1) 6))
    ∧ (∀ (elem : Html) (n : Nat),
        headingDepth (decodeHeading libs elem n) = some (max 1 (n - 1)))
    ∧ headingDepth
        (decodeHeading libs (encodeHeading libs id (some 1) content) 2)
      = some 1
    ∧ (5 < d →
        tagOf (encodeHeading libs id (some d) content)
          = some ("h" ++ natToString 6)
        ∧ max 1 (6 - 1) ≠ d) := by
  obtain ⟨a, as, rfl⟩ : ∃ a as, content = a :: as := by
    cases content with
    | nil => exact absurd rfl hc
    | cons a as => exact ⟨a, as, rfl⟩
  refine ⟨rfl, fun elem n => rfl, rfl, fun h5 => ⟨?_, by omega⟩⟩
  have hmin : min (d + 1) 6 = 6 := Nat.min_eq_right (by omega)
  simp only [encodeHeading, List.isEmpty_cons, Bool.false_eq_true, if_false,
    tagOf, Option.getD_some, hmin]

/-- Witness for C4: a depth-1 heading with content encodes to `<h2>`
and its decode at level 2 has depth 1. -/
theorem claim_C4_witness :
    tagOf (encodeHeading libsW none (some 1) [SNode.str "T"])
      = some ("h" ++ natToString (min (1 + 1) 6))
    ∧ headingDepth
        (decodeHeading libsW
          (encodeHeading libsW none (some 1) [SNode.str "T"]) 2)
      = some 1 := by
  have h := claim_C4_heading_depth_roundtrip libsW none 1 [SNode.str "T"]
    (by simp)
  exact ⟨h.1, h.2.2.1⟩

/-- C6: a node whose discriminator has no explicit case in the encoder
is encoded (without failing) into the opaque `<span>` container whose
text content is the node's full JSON5 serialization, and `decodeEntity`
on that container reconstructs the original node exactly whenever the
external JSON5 parser inverts the serializer. -/
theorem claim_C6_unknown_node_fallback (libs : ExtLibs) (j : Json)
    (hrt : libs.json5Parse (libs.json5Stringify (SNode.other j))
      = .ok (SNode.other j)) :
    encodeNode libs (SNode.other j)
      = Html.element "span" (microdataAttrs "Entity")
          [Html.text (libs.json5Stringify (SNode.other j))]
    ∧ decodeEntity libs (encodeNode libs (SNode.other j))
      = SNode.other j := by
  constructor
  · rfl
  · have htc : textContent (encodeNode libs (SNode.other j))
        = libs.json5Stringify (SNode.other j) := rfl
    simp only [decodeEntity, htc, hrt]

/-- Witness for C6: with a concrete serializer/parser pair, an unknown
node round-trips through the opaque container. -/
theorem claim_C6_witness :
    encodeNode libsW (SNode.other Json.null)
      = Html.element "span" (microdataAttrs "Entity") [Html.text "payload"]
    ∧ decodeEntity libsW (encodeNode libsW (SNode.other Json.null))
      = SNode.other Json.null := by
  have h := claim_C6_unknown_node_fallback libsW Json.null rfl
  exact ⟨h.1, h.2⟩

/-- The positions carried by the `<li>` elements produced by
`encodeListItems`, starting from index `k`. -/
theorem encodeListItems_positions (libs : ExtLibs) :
    ∀ (k : Nat) (items : List ListItemRec),
      (encodeListItems libs k items).map liPositionContent
        = mapWithIndexFrom
            (fun i it => some (natToString (it.position.getD (i + 1)))) k items := by
  intro k items
  induction items generalizing k with
  | nil => rfl
  | cons item rest ih =>
    cases item with
    | mk id pos url chk content =>
      simp only [encodeListItems, mapWithIndexFrom, List.map_cons, ih]
      rfl

/-- C7: encoding a list numbers its items: an item with no explicit
`position` is assigned `index + 1` (so unpositioned items are numbered
1..N in source order) and an item with an explicit `position` keeps it
verbatim; the encode is a pure function of the items (the source builds
a fresh object per item and never writes to the caller's item). -/
theorem claim_C7_list_position_default (libs : ExtLibs)
    (order : Option String) (items : List ListItemRec) :
    (encodeList libs order items).childNodes.map liPositionContent
      = mapWithIndex
          (fun i it => some (natToString (it.position.getD (i + 1)))) items := by
  have h : (encodeList libs order items).childNodes
      = encodeListItems libs 0 items := rfl
  rw [h, encodeListItems_positions libs 0 items]
  rfl

/-- C8: the display name used on encode follows the claimed priority
(explicit name, given+family, family only, `Anonymous`), and a missing
publisher or publisher name falls back to `Unknown`. -/
theorem claim_C8_person_display_name :
    (∀ (name : Option String) (givenNames familyNames : List String),
      encodePersonNameString name givenNames familyNames
        = specDisplayName name givenNames familyNames)
    ∧ encodePublisherName none = "Unknown"
    ∧ (∀ p : PublisherRec,
        encodePublisherName (some p) = p.name.getD "Unknown") := by
  refine ⟨?_, rfl, fun p => rfl⟩
  intro name g f
  cases name with
  | some n => rfl
  | none =>
    cases f with
    | nil => simp [encodePersonNameString, specDisplayName]
    | cons a as =>
      cases g with
      | nil => simp [encodePersonNameString, specDisplayName]
      | cons b bs => simp [encodePersonNameString, specDisplayName]

/-- C10: encoding a `Heading` with empty content returns an empty text
node, and only a `Heading` with non-empty content produces a heading
element — which then carries an `id`, the explicit one or a slug
generated from the stringified heading. -/
theorem claim_C10_empty_heading_text_node (libs : ExtLibs)
    (id : Option String) (depth : Option Nat) (content : List SNode) :
    (content = [] → encodeHeading libs id depth content = Html.text "")
    ∧ (content ≠ [] →
        tagOf (encodeHeading libs id depth content)
          = some ("h" ++ natToString (min (depth.getD 0 + 1) 6))
        ∧ elemIdAttr (encodeHeading libs id depth content)
          = some (id.getD (libs.slug (libs.txtStringify
              (SNode.heading id depth content))))) := by
  constructor
  · intro h; subst h; rfl
  · intro h
    obtain ⟨a, as, rfl⟩ : ∃ a as, content = a :: as := by
      cases content with
      | nil => exact absurd rfl h
      | cons a as => exact ⟨a, as, rfl⟩
    refine ⟨rfl, ?_⟩
    cases id with
    | some i => rfl
    | none => rfl

/-- Witness for C10: an empty heading encodes to an empty text node,
and a non-empty one to an `<h1>` element with a slug id. -/
theorem claim_C10_witness :
    encodeHeading libsW none none [] = Html.text ""
    ∧ elemIdAttr (encodeHeading libsW (some "x") none [SNode.str "T"])
      = some "x" := by
  refine ⟨(claim_C10_empty_heading_text_node libsW none none []).1 rfl, ?_⟩
  exact ((claim_C10_empty_heading_text_node libsW (some "x") none
    [SNode.str "T"]).2 (by simp)).2

/-! ### Datatable decoding (decodeDatatable of src/codecs/html) -/

/-- Does this node's tag equal `t`? -/
def isTag (t : String) : Html → Bool
  | .element tag _ _ => tag == t
  | .text _ => false

mutual
/-- All element descendants of the nodes in the list, in document
(pre-)order. -/
def elemDescendantsList : List Html → List Html
  | [] => []
  | c :: rest => elemDescendantsOf c ++ elemDescendantsList rest

/-- The node itself (when an element) followed by its element
descendants. -/
def elemDescendantsOf : Html → List Html
  | .text _ => []
  | .element t a cs => Html.element t a cs :: elemDescendantsList cs
end

/-- `querySelectorAll` restricted to a tag selector: the descendant
elements with that tag, in document order. -/
def querySelectorAll (t : String) (n : Html) : List Html :=
  (elemDescendantsList n.childNodes).filter (isTag t)

/-- `querySelector` restricted to a tag selector. -/
def querySelector (t : String) (n : Html) : Option Html :=
  (querySelectorAll t n).head?

mutual
/-- The `th` descendants that have a `tr` ancestor, in document order —
the evaluation of the selector `tr th` over a list of siblings. -/
def collectTrThList (insideTr : Bool) : List Html → List Html
  | [] => []
  | c :: rest => collectTrThNode insideTr c ++ collectTrThList insideTr rest

/-- The selector `tr th` over one node. -/
def collectTrThNode (insideTr : Bool) : Html → List Html
  | .text _ => []
  | .element t a cs =>
    (if insideTr && t == "th" then [Html.element t a cs] else [])
      ++ collectTrThList (insideTr || t == "tr") cs
end

/-- `thead.querySelectorAll('tr th')`. -/
def queryThInTr (thead : Html) : List Html :=
  collectTrThList false thead.childNodes

/-- Serialize an attribute list (model of DOM serialization; escaping
is not modelled as no claim depends on it). -/
def serializeAttrs : List (String × String) → String
  | [] => ""
  | (k, v) :: rest => " " ++ k ++ "=\"" ++ v ++ "\"" ++ serializeAttrs rest

mutual
/-- Serialize a DOM subtree (model of `outerHTML`). -/
def serializeHtml : Html → String
  | .text s => s
  | .element t a cs =>
    "<" ++ t ++ serializeAttrs a ++ ">" ++ serializeList cs ++ "</" ++ t ++ ">"

/-- Serialize a list of sibling nodes. -/
def serializeList : List Html → String
  | [] => ""
  | [c] => serializeHtml c
  | c :: rest => serializeHtml c ++ serializeList rest
end

/-- Model of `innerHTML`: the serialization of the children. -/
def innerHTML (n : Html) : String := serializeList n.childNodes

/-- Model of `innerText`: the rendered text content. -/
def innerText (n : Html) : String := textContent n

/-- Modelled from the spec: `columnIndexToName` is imported from the
xlsx codec (`src/codecs/xlsx`), which is not part of this repository
snapshot.  The spec describes a spreadsheet-style alphabetic naming
scheme in which the first column is named `A`, the second `B`, …, the
27th `AA`; the call site passes a 0-based column index, so index 0 maps
to `A` and index 26 to `AA`.  Fuel-based bijective base-26 (the fuel
`i+1` always suffices). -/
def columnCharsAux : Nat → Nat → List Char
  | 0, i => [Char.ofNat (65 + i % 26)]
  | fuel + 1, i =>
    if i < 26 then [Char.ofNat (65 + i)]
    else columnCharsAux fuel (i / 26 - 1) ++ [Char.ofNat (65 + i % 26)]

/-- Modelled from the spec: spreadsheet-style column name for a 0-based
column index (0 → `A`, 25 → `Z`, 26 → `AA`). -/
def columnIndexToName (index : Nat) : String := ⟨columnCharsAux (index + 1) index⟩

/-- A `DatatableColumn` node: a name and the column's values (a value
is `none` where a short body row left a hole in the JS array). -/
structure DatatableColumn where
  name : String
  values : List (Option String)
deriving DecidableEq

/-- A `Datatable` node. -/
structure Datatable where
  columns : List DatatableColumn
deriving DecidableEq

/-- JS `arr[i] = v` on a possibly shorter array: holes are filled with
`none`. -/
def setAt (l : List (Option String)) (i : Nat) (v : String) :
    List (Option String) :=
  if i < l.length then l.set i (some v)
  else l ++ List.replicate (i - l.length) none ++ [some v]

/-- `columns[coli].values[rowi] = v`: fails like the JS `TypeError`
when `coli` is out of range (reading `.values` of `undefined`). -/
def setColValue : List DatatableColumn → Nat → Nat → String →
    Except String (List DatatableColumn)
  | [], _, _, _ => .error "TypeError: cannot read values of undefined"
  | col :: rest, 0, rowi, v =>
    .ok ({ col with values := setAt col.values rowi v } :: rest)
  | col :: rest, coli + 1, rowi, v =>
    (setColValue rest coli rowi v).map (fun r => col :: r)

/-- The inner cell loop of `decodeDatatable`: left-to-right over the
`td` cells of one row. -/
def fillCells : List DatatableColumn → Nat → Nat → List Html →
    Except String (List DatatableColumn)
  | cols, _, _, [] => .ok cols
  | cols, rowi, coli, cell :: rest => do
    let cols' ← setColValue cols coli rowi (innerHTML cell)
    fillCells cols' rowi (coli + 1) rest

/-- The outer row loop of `decodeDatatable`: top-to-bottom over the
`tr` rows of the body. -/
def fillRows : List DatatableColumn → Nat → List Html →
    Except String (List DatatableColumn)
  | cols, _, [] => .ok cols
  | cols, rowi, row :: rest => do
    let cols' ← fillCells cols rowi 0 (querySelectorAll "td" row)
    fillRows cols' (rowi + 1) rest

/-- `decodeDatatable` of src/codecs/html: columns are created from
`thead.querySelectorAll('tr th')` — naming each from
`row.querySelector('th')` (a query *inside* the `th` itself) with
`columnIndexToName(index)` as the fallback — and then the body rows are
written into `columns[coli].values[rowi]`. -/
def decodeDatatable (elem : Html) : Except String Datatable :=
  match querySelector "table" elem with
  | none => .ok ⟨[]⟩
  | some table =>
    let columns : List DatatableColumn :=
      match querySelector "thead" table with
      | none => []
      | some thead =>
        mapWithIndex (fun index row =>
          let th := querySelector "th" row
          let name := match th with
            | some t => innerText t
            | none => columnIndexToName index
          ⟨name, []⟩) (queryThInTr thead)
    match querySelector "tbody" table with
    | none => .ok ⟨columns⟩
    | some tbody =>
      (fillRows columns 0 (querySelectorAll "tr" tbody)).map
        (fun cols => ⟨cols⟩)

/-- A table with a header row whose single header cell reads `Name`,
and one body row with the single cell `1`. -/
def c5HeaderTable : Html :=
  Html.element "div" [] [Html.element "table" [] [
    Html.element "thead" [] [Html.element "tr" [] [
      Html.element "th" [] [Html.text "Name"]]],
    Html.element "tbody" [] [Html.element "tr" [] [
      Html.element "td" [] [Html.text "1"]]]]]

/-- The same table without the header row. -/
def c5NoHeaderTable : Html :=
  Html.element "div" [] [Html.element "table" [] [
    Html.element "tbody" [] [Html.element "tr" [] [
      Html.element "td" [] [Html.text "1"]]]]]

/-- C5 (evidence of the code bug): on a table whose header cell reads
`Name`, `decodeDatatable` names the column `A` — the synthesized name —
because `row.querySelector('th')` searches inside the `th` itself and
never finds the header cell; and on a table with body rows but no
header row it fails with a `TypeError` (writing into `columns[0]` which
does not exist) instead of synthesizing column names. -/
theorem claim_C5_datatable_header_bug :
    decodeDatatable c5HeaderTable
      = .ok ⟨[⟨columnIndexToName 0, [some "1"]⟩]⟩
    ∧ columnIndexToName 0 = "A"
    ∧ "A" ≠ "Name"
    ∧ decodeDatatable c5NoHeaderTable
      = .error "TypeError: cannot read values of undefined" := by
  refine ⟨rfl, by decide, by decide, rfl⟩

end Encoda
